import Mathlib

/-
Shallow embedding of the parameter-zonation subsystem of pymarthe:
class MartheParam in src/pymarthe/mparam.py, together with the fields of
MartheModel (src/pymarthe/marthe.py) that it reads (nlay, nrow, ncol,
imask, x_vals, y_vals).

Conventions of the embedding:
* 3-D numpy arrays become total functions from natural-number indices
  (layer, row, col); all statements are restricted to in-range indices.
* Python floats become MFloat: NaN or an exact rational.  The code only
  moves, assigns and compares these values (it never does arithmetic on
  them), so the exact carrier is faithful; NaN is kept separate because
  read_zpc_df compares against np.nan.
* pandas DataFrames become lists of row structures, in row order.
* Fallible code (assert statements, shape errors) returns Except String.
* Whitespace-delimited text files become lists of token lists, one list
  per line; a token is tagged with its lexical class (string or numeric
  literal), which is what pandas type inference recovers when parsing.
-/

/-- Model of a Python float value: NaN or an exact rational. -/
inductive MFloat where
  | nan : MFloat
  | val (q : ℚ) : MFloat
deriving DecidableEq, Repr

/-- Model of the numpy elementwise equality test: NaN compares unequal to
everything, including itself. -/
def MFloat.feq : MFloat → MFloat → Bool
  | .val a, .val b => a == b
  | _, _ => false

/-- Decimal digit to character. -/
def dChar : ℕ → Char := fun d =>
  match d with
  | 0 => '0' | 1 => '1' | 2 => '2' | 3 => '3' | 4 => '4'
  | 5 => '5' | 6 => '6' | 7 => '7' | 8 => '8' | _ => '9'

/-- Decimal digits of n as characters, most significant first (empty for 0). -/
def decChars (n : ℕ) : List Char := ((Nat.digits 10 n).map dChar).reverse

/-- Model of the Python format spec 0wd: decimal, zero-padded to width w.
For w at least 1 this agrees with Python also at n = 0. -/
def padNum (w n : ℕ) : String := ⟨List.replicate (w - (decChars n).length) '0' ++ decChars n⟩

/-- Character to decimal digit, the left inverse of dChar used to prove the
padded decimal names injective. -/
def charVal (ch : Char) : ℕ :=
  if ch = '1' then 1 else if ch = '2' then 2 else if ch = '3' then 3
  else if ch = '4' then 4 else if ch = '5' then 5 else if ch = '6' then 6
  else if ch = '7' then 7 else if ch = '8' then 8 else if ch = '9' then 9 else 0

/-- ZPCFMT from mparam.py line 21: the ZPC row name, built from the parameter
name, the 1-based layer padded to two digits, and the absolute value of the
zone id padded to two digits. -/
def ZPCFMT (name : String) (lay : ℕ) (zone : ℤ) : String :=
  name ++ "_l" ++ padNum 2 (lay + 1) ++ "_zpc" ++ padNum 2 zone.natAbs

/-- Model of np.unique on a flattened integer array: the distinct values in
increasing order. -/
def npUnique (l : List ℤ) : List ℤ := l.dedup.insertionSort (· ≤ ·)

/-- The fields of MartheModel (marthe.py) that MartheParam reads: grid shape,
active-cell mask, and the grid coordinate vectors (x along columns, y along
rows, as the meshgrid calls in mparam.py use them). -/
structure MModel where
  nlay : ℕ
  nrow : ℕ
  ncol : ℕ
  imask : ℕ → ℕ → ℕ → ℤ
  x_vals : ℕ → MFloat
  y_vals : ℕ → MFloat

/-- A caller-supplied 3-D integer array with its shape, as passed to
set_izone; the shape is checked by the assert at mparam.py line 101. -/
structure Arr3 where
  nlay : ℕ
  nrow : ℕ
  ncol : ℕ
  val : ℕ → ℕ → ℕ → ℤ

/-- One row of zpc_df: index name, layer (0-based), zone id, value. -/
structure ZpcRow where
  name : String
  lay : ℕ
  zone : ℤ
  value : MFloat
deriving DecidableEq, Repr

/-- One row of a pilot-point dataframe: name, x, y, zone id, value. -/
structure PpRow where
  name : String
  x : MFloat
  y : MFloat
  zone : ℤ
  value : MFloat
deriving DecidableEq, Repr

/-- The state of a MartheParam instance: parameter name, default value, the
izone array, the grid array it writes into (self.array), zpc_df, and pp_dic
(an insertion-ordered dictionary from layer to an optional dataframe). -/
structure PParam where
  name : String
  default_value : MFloat
  izone : ℕ → ℕ → ℕ → ℤ
  array : ℕ → ℕ → ℕ → MFloat
  zpc_df : List ZpcRow
  pp_dic : List (ℕ × Option (List PpRow))

/-- All values of one layer of a 3-D integer array, in row-major order. -/
def layerVals (mm : MModel) (iz : ℕ → ℕ → ℕ → ℤ) (lay : ℕ) : List ℤ :=
  (List.range mm.nrow).flatMap (fun r => (List.range mm.ncol).map (fun c => iz lay r c))

/-- np.unique(izone[lay]) as used at mparam.py lines 122 and 138. -/
def layerZones (mm : MModel) (iz : ℕ → ℕ → ℕ → ℤ) (lay : ℕ) : List ℤ :=
  npUnique (layerVals mm iz lay)

/-- The whole 3-D array flattened, so that np.unique(izone) at line 216 is
npUnique of this list. -/
def allVals (mm : MModel) (iz : ℕ → ℕ → ℕ → ℤ) : List ℤ :=
  (List.range mm.nlay).flatMap (fun lay => layerVals mm iz lay)

/-- init_zpc_df (mparam.py lines 127-146): one row per negative zone of
np.unique of each layer, value set to the default value, name by ZPCFMT. -/
def init_zpc_df (mm : MModel) (name : String) (default_value : MFloat)
    (iz : ℕ → ℕ → ℕ → ℤ) : List ZpcRow :=
  (List.range mm.nlay).flatMap (fun lay =>
    ((layerZones mm iz lay).filter (fun z => z < 0)).map
      (fun zone => ⟨ZPCFMT name lay zone, lay, zone, default_value⟩))

/-- init_pp_dic (mparam.py lines 111-125): the layers whose zone list has at
least one positive entry, each mapped to None. -/
def init_pp_dic (mm : MModel) (iz : ℕ → ℕ → ℕ → ℤ) : List (ℕ × Option (List PpRow)) :=
  ((List.range mm.nlay).filter
    (fun lay => ((layerZones mm iz lay).filter (fun z => 0 < z)).length > 0)).map
    (fun lay => (lay, none))

/-- set_izone (mparam.py lines 63-108).  izone starts as a copy of imask;
active cells (imask equal to 1) are overwritten with -1 when no array is
supplied, or with the supplied values when an array of the right shape is
supplied (the shape assert is at line 101); zpc_df and pp_dic are then
rebuilt from the new izone.  The grid array self.array is not touched. -/
def set_izone (mm : MModel) (p : PParam) (izo : Option Arr3) : Except String PParam :=
  match izo with
  | none =>
      let iz := fun i r c => if mm.imask i r c = 1 then -1 else mm.imask i r c
      .ok { p with izone := iz,
                   zpc_df := init_zpc_df mm p.name p.default_value iz,
                   pp_dic := init_pp_dic mm iz }
  | some a =>
      if a.nlay = mm.nlay ∧ a.nrow = mm.nrow ∧ a.ncol = mm.ncol then
        let iz := fun i r c => if mm.imask i r c = 1 then a.val i r c else mm.imask i r c
        .ok { p with izone := iz,
                     zpc_df := init_zpc_df mm p.name p.default_value iz,
                     pp_dic := init_pp_dic mm iz }
      else .error "AssertionError: izone shape does not match the grid shape"

/-- A Python value passed to set_array: a float, an int, or a numpy array
(given by its flattened values). -/
inductive PVal where
  | f (x : MFloat)
  | i (n : ℤ)
  | arr (a : List MFloat)
deriving DecidableEq, Repr

/-- isinstance(values, float). -/
def PVal.isFloat : PVal → Bool
  | .f _ => true
  | _ => false

/-- isinstance(values, np.ndarray). -/
def PVal.isArr : PVal → Bool
  | .arr _ => true
  | _ => false

/-- Cells of one layer selected by izone equal to zone, in row-major order,
which is the order numpy enumerates a boolean mask in. -/
def selIdx (mm : MModel) (iz : ℕ → ℕ → ℕ → ℤ) (lay : ℕ) (zone : ℤ) : List (ℕ × ℕ) :=
  (List.range mm.nrow).flatMap (fun r =>
    ((List.range mm.ncol).filter (fun c => iz lay r c == zone)).map (fun c => (r, c)))

/-- Lookup of a cell among the pairs of selected cell and assigned value. -/
def lookupPair (l : List ((ℕ × ℕ) × MFloat)) (rc : ℕ × ℕ) : Option MFloat :=
  (l.find? (fun e => e.1 == rc)).map (fun e => e.2)

/-- set_array (mparam.py lines 196-228).  The four asserts of lines 215-220
run before the assignment of line 226, so a failing call leaves the grid
array untouched; this is modelled by returning an error before any state is
built.  On success the cells of the given layer whose izone value equals the
given zone are overwritten: uniformly for a scalar, positionally (row-major)
for an array of matching length, with numpy length-1 broadcast kept. -/
def set_array (mm : MModel) (p : PParam) (lay : ℕ) (zone : ℤ) (values : PVal) :
    Except String PParam :=
  if lay < mm.nlay then
    if zone ∈ npUnique (allVals mm p.izone) then
      if zone < 0 ∧ ¬ values.isFloat = true then
        .error "AssertionError: A float should be provided for ZPC."
      else if 0 < zone ∧ ¬ values.isArr = true then
        .error "AssertionError: An array should be provided for PP"
      else
        match values with
        | .f x => .ok { p with array := fun i r c =>
            if i = lay ∧ p.izone i r c = zone then x else p.array i r c }
        | .i n => .ok { p with array := fun i r c =>
            if i = lay ∧ p.izone i r c = zone then .val n else p.array i r c }
        | .arr a =>
            let sel := selIdx mm p.izone lay zone
            if a.length = sel.length then
              .ok { p with array := fun i r c =>
                if i = lay ∧ p.izone i r c = zone then
                  match lookupPair (sel.zip a) (r, c) with
                  | some v => v
                  | none => p.array i r c
                else p.array i r c }
            else if a.length = 1 then
              .ok { p with array := fun i r c =>
                if i = lay ∧ p.izone i r c = zone then
                  match a.head? with
                  | some v => v
                  | none => p.array i r c
                else p.array i r c }
            else .error "ValueError: shape mismatch in mask assignment"
    else .error "AssertionError: zone is not valid"
  else .error "AssertionError: layer is not valid."

/-- The parameter state after the scalar assignment of mparam.py line 226:
the cells of the given layer whose izone value equals the given zone are set
to x, everything else is kept.  This is the state set_array returns for a
float value, named so that theorems can refer to it. -/
def assignScalar (p : PParam) (lay : ℕ) (zone : ℤ) (x : MFloat) : PParam :=
  { p with array := fun i r c =>
      if i = lay ∧ p.izone i r c = zone then x else p.array i r c }

/-- set_array_from_zpc_df (mparam.py lines 230-235): call set_array for every
row of zpc_df in row order, each with the float value of the row.  The value
column holds MFloat values, which are never the Python constant None, so the
is-None check of line 233 never fires and is not modelled. -/
def set_array_from_zpc_df (mm : MModel) (p : PParam) : Except String PParam :=
  p.zpc_df.foldlM (fun q row => set_array mm q row.lay row.zone (.f row.value)) p

/-- A Python number: int or float, as tested by isinstance(values, (int, float)). -/
inductive PyNum where
  | i (n : ℤ)
  | f (x : MFloat)
deriving DecidableEq, Repr

/-- The float a Python number becomes when stored into the value column. -/
def PyNum.toMFloat : PyNum → MFloat
  | .i n => .val n
  | .f x => x

/-- A value of the dictionary argument of set_zpc_values for one layer:
either a number or a nested zone dictionary. -/
inductive LayVal where
  | num (v : PyNum)
  | sub (d : List (ℤ × PyNum))
deriving DecidableEq, Repr

/-- The argument of set_zpc_values: a single number or a dictionary from
layer to LayVal (Python dictionaries iterate in insertion order). -/
inductive ZpcVals where
  | num (v : PyNum)
  | dic (d : List (ℕ × LayVal))
deriving DecidableEq, Repr

/-- Character-list test that pre is a leading piece of s, modelling the
Python str.startswith used at mparam.py line 183. -/
def strStartsWith (s pre : String) : Bool := List.isPrefixOf pre.data s.data

/-- Error raised at mparam.py line 174, which reads the variable value that
is not defined in that scope (the argument is named values). -/
def nameErrorValue : String := "NameError: value is not defined"

/-- Error raised at mparam.py line 188, which reads the variable zone while
the loop variable of line 187 is named zones. -/
def nameErrorZone : String := "NameError: zone is not defined"

/-- Dictionary loop of set_zpc_values (mparam.py lines 177-190), processing
the layer entries in order and carrying the partially updated state; an
uncaught NameError stops the loop, keeping the updates already applied. -/
def set_zpc_values_go (p : PParam) : List (ℕ × LayVal) → PParam × Option String
  | [] => (p, none)
  | (lay, .num v) :: rest =>
      let pfx := p.name ++ "_l" ++ padNum 2 (lay + 1)
      let df := p.zpc_df.map (fun row =>
        if strStartsWith row.name pfx then { row with value := v.toMFloat } else row)
      set_zpc_values_go { p with zpc_df := df } rest
  | (_, .sub s) :: rest =>
      if s.isEmpty then set_zpc_values_go p rest
      else (p, some nameErrorZone)

/-- set_zpc_values (mparam.py lines 148-193).  A numeric argument reaches
line 174, whose right-hand side is the undefined name value, so it raises
NameError before assigning anything; a dictionary argument is processed per
layer: numeric entries update the rows whose name starts with the layer
prefix, nested dictionary entries reach line 188, which reads the undefined
name zone as soon as the nested dictionary is non-empty. -/
def set_zpc_values (p : PParam) (values : ZpcVals) : PParam × Option String :=
  match values with
  | .num _ => (p, some nameErrorValue)
  | .dic d => set_zpc_values_go p d

/-- One whitespace-delimited field of a text file, tagged with the lexical
class pandas type inference recovers for it. -/
inductive Tok where
  | s (v : String)
  | i (n : ℤ)
  | f (x : MFloat)
deriving DecidableEq, Repr

/-- Decimal string of a natural number (Python str). -/
def natStr (n : ℕ) : String := if n = 0 then "0" else ⟨decChars n⟩

/-- Decimal string of an integer (Python str). -/
def intStr (n : ℤ) : String := if n < 0 then "-" ++ natStr n.natAbs else natStr n.natAbs

/-- The string a field yields when consumed as a label column. -/
def tokStr : Tok → String
  | .s v => v
  | .i n => intStr n
  | .f _ => "float"

/-- The float a field yields when consumed as a numeric column; a numeric
literal written without a decimal point parses to the same number. -/
def tokFloat : Tok → MFloat
  | .f x => x
  | .i n => .val n
  | .s _ => .nan

/-- write_zpc_data (mparam.py lines 332-356): when zpc_df is non-empty,
write one line per row holding the fields name, lay, zone, value in that
order (to_string with the index followed by the columns lay, zone, value,
no header); when zpc_df is empty no file is written. -/
def write_zpc_data (p : PParam) : Option (List (List Tok)) :=
  if p.zpc_df.length > 0 then
    some (p.zpc_df.map (fun row => [.s row.name, .i (row.lay : ℤ), .i row.zone, .f row.value]))
  else none

/-- Result of read_zpc_df: the updated parameter plus what the call reports:
whether it bailed out because no known name was found, the file names not
recognized, and the names it reports as missing from the file. -/
structure ReadZpcResult where
  param : PParam
  none_found : Bool
  not_found : List String
  missing : List String

/-- read_zpc_df (mparam.py lines 443-512).  The file is read keeping the
first two fields of each line (read_csv with usecols 0 and 1, names name and
value).  File rows whose name is in the zpc_df index are kept, the others
are collected as not found.  If no row is kept the function returns with
zpc_df untouched.  Otherwise the left merge on the index makes the new value
column: the file value where the name was found, NaN where it was not, and
the old values are dropped.  The missing check of line 506 compares the
value column with np.nan using ==, which no value satisfies. -/
def read_zpc_df (p : PParam) (file : List (List Tok)) : ReadZpcResult :=
  let df : List (String × MFloat) := file.filterMap (fun row =>
    match row.get? 0 with
    | some t0 => some (tokStr t0, match row.get? 1 with
        | some t1 => tokFloat t1
        | none => MFloat.nan)
    | none => none)
  let names := p.zpc_df.map (fun row => row.name)
  let parvals := df.filter (fun e => names.contains e.1)
  let not_found_parnames := (df.filter (fun e => ¬ names.contains e.1 = true)).map (fun e => e.1)
  if parvals.length = 0 then
    ⟨p, true, [], []⟩
  else
    let zpc2 := p.zpc_df.map (fun row =>
      match (parvals.find? (fun e => e.1 == row.name)).map (fun e => e.2) with
      | some v => { row with value := v }
      | none => { row with value := MFloat.nan })
    let missing := (zpc2.filter (fun row => MFloat.feq row.value MFloat.nan)).map (fun row => row.name)
    ⟨{ p with zpc_df := zpc2 }, false, not_found_parnames, missing⟩

/-- The lattice-and-zone cell selection of pp_from_rgrid (mparam.py lines
415-423): a cell is selected when its row and column are multiples of
n_cell (the meshgrid of range(0, nrow, n_cell) and range(0, ncol, n_cell))
and its izone value equals the zone, which is fixed to 1 at line 404. -/
def pp_select (iz2 : ℕ → ℕ → ℤ) (n_cell : ℕ) (r c : ℕ) : Bool :=
  r % n_cell == 0 && c % n_cell == 0 && iz2 r c == 1

/-- The selected cells of the layer in row-major order, the order in which
numpy extracts the coordinates at lines 425-426. -/
def selCells (mm : MModel) (iz2 : ℕ → ℕ → ℤ) (n_cell : ℕ) : List (ℕ × ℕ) :=
  (List.range mm.nrow).flatMap (fun r =>
    ((List.range mm.ncol).filter (fun c => pp_select iz2 n_cell r c)).map (fun c => (r, c)))

/-- Python dictionary assignment: replace the value of an existing key in
place, or append a new key at the end. -/
def dicSet (d : List (ℕ × Option (List PpRow))) (k : ℕ) (v : Option (List PpRow)) :
    List (ℕ × Option (List PpRow)) :=
  match d with
  | [] => [(k, v)]
  | (k0, v0) :: rest => if k0 = k then (k, v) :: rest else (k0, v0) :: dicSet rest k v

/-- Python dictionary lookup. -/
def dicGet (d : List (ℕ × Option (List PpRow))) (k : ℕ) : Option (Option (List PpRow)) :=
  (d.find? (fun e => e.1 == k)).map (fun e => e.2)

/-- pp_from_rgrid (mparam.py lines 378-440): select the lattice cells of the
layer that carry zone 1, read their centers off the coordinate vectors
(x indexed by column, y indexed by row), name them with the prefix
name_l{lay:02d}_z{zone:02d} and a 3-digit running index, give every point
the default value, and store the dataframe under the layer key of pp_dic. -/
def pp_from_rgrid (mm : MModel) (p : PParam) (lay : ℕ) (n_cell : ℕ) : PParam :=
  let sel := selCells mm (fun r c => p.izone lay r c) n_cell
  let n_pp := sel.length
  let pfx := p.name ++ "_l" ++ padNum 2 lay ++ "_z" ++ padNum 2 1
  let pp_names := (List.range n_pp).map (fun k => pfx ++ "_" ++ padNum 3 k)
  let pp_df := List.zipWith
    (fun nm rc => PpRow.mk nm (mm.x_vals rc.2) (mm.y_vals rc.1) 1 p.default_value)
    pp_names sel
  { p with pp_dic := dicSet p.pp_dic lay (some pp_df) }

/-
Concrete model instances, used to evaluate the theorems on explicit inputs.
-/

/-- A one-layer 2 by 2 model whose mask marks the diagonal cells active. -/
def mmC2 : MModel :=
  ⟨1, 2, 2, fun _ r c => if r = c then 1 else 0, fun c => .val c, fun r => .val r⟩

/-- A parameter over mmC2, izone defaulted to minus one on active cells. -/
def pC2 : PParam :=
  ⟨"permh", .val 3, fun i r c => if mmC2.imask i r c = 1 then -1 else 0,
   fun _ _ _ => .val 0, [], []⟩

/-- A supplied zonation array of the correct shape with no zero entries. -/
def aC2 : Arr3 := ⟨1, 2, 2, fun _ r c => -(1 + r + c)⟩

/-- A one-layer all-active 2 by 2 model. -/
def mmC10 : MModel := ⟨1, 2, 2, fun _ _ _ => 1, fun c => .val c, fun r => .val r⟩

/-- A parameter over mmC10 whose grid array holds distinct values. -/
def pC10 : PParam :=
  ⟨"permh", .val 3, fun _ _ _ => -1,
   fun i r c => .val (((4 * i + 2 * r + c : ℕ) : ℚ)), [], []⟩

/-- The parameter produced by re-running the default zonation on pC10. -/
def pC10res : PParam :=
  match set_izone mmC10 pC10 none with
  | .ok q => q
  | .error _ => pC10

/-- A one-layer single-cell model for the failing set_array calls. -/
def mmC8 : MModel := ⟨1, 1, 1, fun _ _ _ => 1, fun c => .val c, fun r => .val r⟩

/-- A parameter over mmC8 with the single zone minus one. -/
def pC8 : PParam :=
  ⟨"kepon", .val 1, fun _ _ _ => -1, fun _ _ _ => .val 0, [], []⟩

/-- The two-layer model of the reconstruction scenario: layer 0 is fully
active, layer 1 fully inactive. -/
def mmC1 : MModel :=
  ⟨2, 4, 2, fun i _ _ => if i = 0 then 1 else 0, fun c => .val c, fun r => .val r⟩

/-- The parameter of the reconstruction scenario: in layer 0, zone minus one
covers rows 0 and 1 and zone minus two covers rows 2 and 3; the ZPC table
maps zone minus one to 5.0 and zone minus two to 9.0; the grid array holds
distinct sentinel values. -/
def pC1 : PParam :=
  ⟨"permh", .val 3,
   fun i r _ => if i = 0 then (if r < 2 then -1 else -2) else 0,
   fun i r c => .val (((100 * i + 10 * r + c : ℕ) : ℚ)),
   [⟨"permh_l01_zpc01", 0, -1, .val 5⟩, ⟨"permh_l01_zpc02", 0, -2, .val 9⟩],
   []⟩

/-- A two-layer 2 by 2 model with every layer holding an active cell. -/
def mmC3 : MModel :=
  ⟨2, 2, 2, fun _ r c => if r = c then 1 else 0, fun c => .val c, fun r => .val r⟩

/-- A parameter over mmC3 (its izone is about to be reset). -/
def pC3 : PParam :=
  ⟨"kepon", .val 7, fun _ _ _ => 0, fun _ _ _ => .val 0, [], []⟩

/-- The parameter produced by the default zonation reset on pC3. -/
def pC3res : PParam :=
  match set_izone mmC3 pC3 none with
  | .ok q => q
  | .error _ => pC3

/-- A single-row ZPC table for the write and read round trip. -/
def pC4 : PParam :=
  ⟨"permh", .val 3, fun _ _ _ => -1, fun _ _ _ => .val 0,
   [⟨"permh_l01_zpc01", 0, -1, .val 5⟩], []⟩

/-- The file write_zpc_data produces for pC4: name, lay, zone, value. -/
def fileC4 : List (List Tok) :=
  [[.s "permh_l01_zpc01", .i 0, .i (-1), .f (.val 5)]]

/-- A two-row ZPC table, both rows valued 5.0. -/
def pC5 : PParam :=
  ⟨"permh", .val 3, fun _ _ _ => -1, fun _ _ _ => .val 0,
   [⟨"permh_l01_zpc01", 0, -1, .val 5⟩, ⟨"permh_l02_zpc01", 1, -1, .val 5⟩], []⟩

/-- A value file that mentions only the first of the two known names. -/
def fileC5 : List (List Tok) :=
  [[.s "permh_l01_zpc01", .f (.val 7)]]

/-- A one-layer 5 by 4 all-active model with injective coordinate vectors. -/
def mmC9 : MModel :=
  ⟨1, 5, 4, fun _ _ _ => 1, fun c => .val c, fun r => .val r⟩

/-- A parameter over mmC9 whose single layer is entirely zone 1. -/
def pC9 : PParam :=
  ⟨"permh", .val 3, fun _ _ _ => 1, fun _ _ _ => .val 0, [], [(0, none)]⟩

/-
Helper lemmas about the embedded operations.
-/

theorem mem_npUnique {l : List ℤ} {z : ℤ} : z ∈ npUnique l ↔ z ∈ l := by
  unfold npUnique
  rw [List.mem_insertionSort]
  exact List.mem_dedup

theorem nodup_npUnique (l : List ℤ) : (npUnique l).Nodup :=
  (List.perm_insertionSort (· ≤ ·) l.dedup).nodup_iff.mpr (List.nodup_dedup l)

theorem mem_layerVals {mm : MModel} {iz : ℕ → ℕ → ℕ → ℤ} {lay : ℕ} {z : ℤ} :
    z ∈ layerVals mm iz lay ↔ ∃ r < mm.nrow, ∃ c < mm.ncol, iz lay r c = z := by
  unfold layerVals
  simp only [List.mem_flatMap, List.mem_map, List.mem_range]

theorem mem_allVals {mm : MModel} {iz : ℕ → ℕ → ℕ → ℤ} {z : ℤ} :
    z ∈ allVals mm iz ↔ ∃ lay < mm.nlay, ∃ r < mm.nrow, ∃ c < mm.ncol, iz lay r c = z := by
  unfold allVals
  simp only [List.mem_flatMap, List.mem_range]
  constructor
  · rintro ⟨lay, hlay, hz⟩
    exact ⟨lay, hlay, mem_layerVals.mp hz⟩
  · rintro ⟨lay, hlay, hz⟩
    exact ⟨lay, hlay, mem_layerVals.mpr hz⟩

/-- Claim C6: calling set_zpc_values with a single numeric value (int or
float) is claimed to set the value column of every row.  In the code, line
174 assigns the undefined name value (the argument is named values) to a
column named values, so every such call raises NameError before touching
the table: the state comes back unchanged together with the error. -/
theorem set_zpc_values_uniform_raises (p : PParam) (v : PyNum) :
    set_zpc_values p (.num v) = (p, some nameErrorValue) := rfl

/-- Claim C7: calling set_zpc_values with a nested dictionary of one layer
and one zone is claimed to update exactly that row.  In the code, the loop
at line 187 binds the variable zones while line 188 reads the undefined
name zone, so the call raises NameError as soon as the nested dictionary is
non-empty, and no row is updated. -/
theorem set_zpc_values_nested_raises (p : PParam) (lay : ℕ) (z : ℤ)
    (v : PyNum) (d : List (ℤ × PyNum)) (rest : List (ℕ × LayVal)) :
    set_zpc_values p (.dic ((lay, .sub ((z, v) :: d)) :: rest)) = (p, some nameErrorZone) :=
  rfl

/-- Claim C10: set_izone never touches the grid array: whenever a call to
set_izone succeeds (izone argument absent or of the correct shape), the
resulting parameter carries the same array function, parameter name and
default value; only izone, zpc_df and pp_dic are rewritten. -/
theorem set_izone_preserves_array (mm : MModel) (p : PParam) (izo : Option Arr3)
    (p' : PParam) (h : set_izone mm p izo = .ok p') :
    p'.array = p.array ∧ p'.name = p.name ∧ p'.default_value = p.default_value := by
  cases izo with
  | none =>
      simp only [set_izone, Except.ok.injEq] at h
      subst h
      exact ⟨rfl, rfl, rfl⟩
  | some a =>
      simp only [set_izone] at h
      split at h
      · simp only [Except.ok.injEq] at h
        subst h
        exact ⟨rfl, rfl, rfl⟩
      · exact Except.noConfusion h

/-- Witness for C10: re-running the default zonation on the concrete pC10
leaves its grid array, name and default value intact. -/
theorem set_izone_preserves_array_witness :
    pC10res.array = pC10.array ∧ pC10res.name = pC10.name ∧
      pC10res.default_value = pC10.default_value :=
  set_izone_preserves_array mmC10 pC10 none pC10res rfl

/-- Claim C2: for a supplied zonation array of the correct shape, and a 0-1
valued mask, the izone produced by set_izone is 0 wherever the mask is 0,
is non-zero only where the mask is 1, and at cells where the mask is not 1
it keeps the mask value rather than copying the supplied array. -/
theorem set_izone_mask_clamp (mm : MModel) (p : PParam) (a : Arr3)
    (hsh : a.nlay = mm.nlay ∧ a.nrow = mm.nrow ∧ a.ncol = mm.ncol)
    (hmask : ∀ i < mm.nlay, ∀ r < mm.nrow, ∀ c < mm.ncol,
      mm.imask i r c = 0 ∨ mm.imask i r c = 1) :
    ∃ p', set_izone mm p (some a) = .ok p' ∧
      ∀ i < mm.nlay, ∀ r < mm.nrow, ∀ c < mm.ncol,
        (mm.imask i r c = 0 → p'.izone i r c = 0) ∧
        (p'.izone i r c ≠ 0 → mm.imask i r c = 1) ∧
        (mm.imask i r c ≠ 1 → p'.izone i r c = mm.imask i r c) := by
  have hstep : set_izone mm p (some a) =
      .ok { p with
        izone := fun i r c => if mm.imask i r c = 1 then a.val i r c else mm.imask i r c,
        zpc_df := init_zpc_df mm p.name p.default_value
          (fun i r c => if mm.imask i r c = 1 then a.val i r c else mm.imask i r c),
        pp_dic := init_pp_dic mm
          (fun i r c => if mm.imask i r c = 1 then a.val i r c else mm.imask i r c) } := by
    simp only [set_izone]
    rw [if_pos hsh]
  refine ⟨_, hstep, ?_⟩
  intro i hi r hr c hc
  refine ⟨fun h0 => ?_, fun hnz => ?_, fun hne => ?_⟩
  · have hne1 : mm.imask i r c ≠ 1 := by rw [h0]; decide
    show (if mm.imask i r c = 1 then a.val i r c else mm.imask i r c) = 0
    rw [if_neg hne1, h0]
  · rcases hmask i hi r hr c hc with h0 | h1
    · exfalso
      apply hnz
      have hne1 : mm.imask i r c ≠ 1 := by rw [h0]; decide
      show (if mm.imask i r c = 1 then a.val i r c else mm.imask i r c) = 0
      rw [if_neg hne1, h0]
    · exact h1
  · show (if mm.imask i r c = 1 then a.val i r c else mm.imask i r c) = mm.imask i r c
    rw [if_neg hne]

/-- Witness for C2: the diagonal mask of mmC2 with the everywhere non-zero
supplied array aC2. -/
theorem set_izone_mask_clamp_witness :
    (aC2.nlay = mmC2.nlay ∧ aC2.nrow = mmC2.nrow ∧ aC2.ncol = mmC2.ncol) ∧
    (∃ p', set_izone mmC2 pC2 (some aC2) = .ok p' ∧
      ∀ i < mmC2.nlay, ∀ r < mmC2.nrow, ∀ c < mmC2.ncol,
        (mmC2.imask i r c = 0 → p'.izone i r c = 0) ∧
        (p'.izone i r c ≠ 0 → mmC2.imask i r c = 1) ∧
        (mmC2.imask i r c ≠ 1 → p'.izone i r c = mmC2.imask i r c)) :=
  ⟨by decide, set_izone_mask_clamp mmC2 pC2 aC2 (by decide) (by decide)⟩

/-- Claim C8: set_array fails on any of the four assert conditions of
mparam.py lines 215-220 (layer out of range, zone absent from the whole
izone array, non-float for a negative zone, non-array for a positive zone),
and the asserts run before the assignment of line 226, so the grid array of
the returned state is never touched: the call returns an error. -/
theorem set_array_fail_fast (mm : MModel) (p : PParam) (lay : ℕ) (zone : ℤ)
    (values : PVal)
    (h : ¬ lay < mm.nlay ∨ zone ∉ allVals mm p.izone
       ∨ (zone < 0 ∧ ¬ values.isFloat = true) ∨ (0 < zone ∧ ¬ values.isArr = true)) :
    ∃ msg, set_array mm p lay zone values = .error msg := by
  unfold set_array
  by_cases h1 : lay < mm.nlay
  · rw [if_pos h1]
    by_cases h2 : zone ∈ npUnique (allVals mm p.izone)
    · rw [if_pos h2]
      rcases h with h | h | h3 | h4
      · exact absurd h1 h
      · exact absurd (mem_npUnique.mp h2) h
      · rw [if_pos h3]
        exact ⟨_, rfl⟩
      · by_cases h3 : zone < 0 ∧ ¬ values.isFloat = true
        · rw [if_pos h3]
          exact ⟨_, rfl⟩
        · rw [if_neg h3, if_pos h4]
          exact ⟨_, rfl⟩
    · rw [if_neg h2]
      exact ⟨_, rfl⟩
  · rw [if_neg h1]
    exact ⟨_, rfl⟩

/-- Witness for C8: layer 5 is out of range on the one-layer model mmC8,
so the call errors out. -/
theorem set_array_fail_fast_witness :
    (¬ (5 : ℕ) < mmC8.nlay) ∧
    (∃ msg, set_array mmC8 pC8 5 (-1) (.f (.val 1)) = .error msg) :=
  ⟨by decide, set_array_fail_fast mmC8 pC8 5 (-1) (.f (.val 1)) (Or.inl (by decide))⟩

/-- Claim C4: the write and read pair is claimed to round-trip ZPC values.
write_zpc_data emits four fields per line (name, lay, zone, value), while
read_zpc_df consumes fields 0 and 1 as name and value, so reading back the
written file replaces every value by the layer number: the single row of
pC4, written with value 5.0, comes back with value 0.0 (its layer). -/
theorem zpc_roundtrip_loses_values :
    write_zpc_data pC4 = some fileC4 ∧
    (read_zpc_df pC4 fileC4).param.zpc_df = [⟨"permh_l01_zpc01", 0, -1, .val 0⟩] ∧
    MFloat.val 0 ≠ MFloat.val 5 := by decide

/-- Claim C5: rows known from the Zone Map but absent from the file are
claimed to keep their previous value and to be reported missing.  In the
code the left merge keeps only the file values (value_y), so the absent row
permh_l02_zpc01 loses its previous value 5.0 and becomes NaN, and the
missing check compares the column with np.nan using ==, which never holds,
so nothing is reported. -/
theorem read_zpc_df_missing_rows :
    (read_zpc_df pC5 fileC5).param.zpc_df =
      [⟨"permh_l01_zpc01", 0, -1, .val 7⟩, ⟨"permh_l02_zpc01", 1, -1, .nan⟩] ∧
    (read_zpc_df pC5 fileC5).missing = [] ∧
    (read_zpc_df pC5 fileC5).not_found = [] ∧
    MFloat.nan ≠ MFloat.val 5 := by decide

/-- A successful scalar set_array call: for a valid layer, a negative zone
present in izone and a float value, the cells of the layer whose izone
value equals the zone are set, the rest of the state is unchanged. -/
theorem set_array_float_ok (mm : MModel) (p : PParam) (lay : ℕ) (zone : ℤ) (x : MFloat)
    (h1 : lay < mm.nlay) (h2 : zone ∈ allVals mm p.izone) (h3 : zone < 0) :
    set_array mm p lay zone (.f x) = .ok (assignScalar p lay zone x) := by
  unfold set_array
  rw [if_pos h1, if_pos (mem_npUnique.mpr h2)]
  rw [if_neg (by simp [PVal.isFloat])]
  rw [if_neg (by rintro ⟨hpos, -⟩; omega)]
  rfl

/-- The fold of set_array over a row list with pairwise distinct layer and
zone pairs: every call succeeds, izone is untouched, every row gets its
cells set to its value, and unselected cells keep their old value. -/
theorem foldlM_set_array (mm : MModel) :
    ∀ (rows : List ZpcRow) (q : PParam),
      (∀ row ∈ rows, row.lay < mm.nlay ∧ row.zone < 0 ∧ row.zone ∈ allVals mm q.izone) →
      (rows.map (fun row => (row.lay, row.zone))).Nodup →
      ∃ q', (rows.foldlM (fun s row => set_array mm s row.lay row.zone (.f row.value)) q) = .ok q' ∧
        q'.izone = q.izone ∧
        (∀ row ∈ rows, ∀ r c : ℕ, q.izone row.lay r c = row.zone →
          q'.array row.lay r c = row.value) ∧
        (∀ i r c : ℕ, (∀ row ∈ rows, ¬ (i = row.lay ∧ q.izone i r c = row.zone)) →
          q'.array i r c = q.array i r c) := by
  intro rows
  induction rows with
  | nil =>
      intro q _ _
      exact ⟨q, rfl, rfl, by simp, fun i r c _ => rfl⟩
  | cons row rest ih =>
      intro q hval hnd
      have hrow := hval row (List.mem_cons_self row rest)
      have hstep := set_array_float_ok mm q row.lay row.zone row.value hrow.1 hrow.2.2 hrow.2.1
      have hfold : (row :: rest).foldlM
            (fun s r => set_array mm s r.lay r.zone (.f r.value)) q =
          rest.foldlM (fun s r => set_array mm s r.lay r.zone (.f r.value))
            (assignScalar q row.lay row.zone row.value) := by
        rw [List.foldlM_cons, hstep]
        rfl
      have hval1 : ∀ row' ∈ rest, row'.lay < mm.nlay ∧ row'.zone < 0 ∧
          row'.zone ∈ allVals mm (assignScalar q row.lay row.zone row.value).izone := by
        intro row' hm
        exact hval row' (List.mem_cons_of_mem row hm)
      have hnd1 := (List.nodup_cons.mp hnd).2
      have hpair : (row.lay, row.zone) ∉ rest.map (fun r => (r.lay, r.zone)) :=
        (List.nodup_cons.mp hnd).1
      obtain ⟨q', hq', hiz, ha, hb⟩ := ih _ hval1 hnd1
      refine ⟨q', by rw [hfold]; exact hq', by rw [hiz]; rfl, ?_, ?_⟩
      · intro row' hm r c hmatch
        rcases List.mem_cons.mp hm with hEq | hmem
        · subst hEq
          have hnotail : ∀ row'' ∈ rest,
              ¬ (row'.lay = row''.lay ∧ q.izone row'.lay r c = row''.zone) := by
            rintro row'' hm'' ⟨hl, hz⟩
            apply hpair
            apply List.mem_map.mpr
            refine ⟨row'', hm'', ?_⟩
            rw [← hl, ← hz, hmatch]
          have hkeep := hb row'.lay r c hnotail
          rw [hkeep]
          show (if row'.lay = row'.lay ∧ q.izone row'.lay r c = row'.zone
            then row'.value else q.array row'.lay r c) = row'.value
          rw [if_pos ⟨rfl, hmatch⟩]
        · exact ha row' hmem r c hmatch
      · intro i r c hnone
        have hkeep := hb i r c (fun row'' hm'' => hnone row'' (List.mem_cons_of_mem row hm''))
        rw [hkeep]
        show (if i = row.lay ∧ q.izone i r c = row.zone
          then row.value else q.array i r c) = q.array i r c
        rw [if_neg (hnone row (List.mem_cons_self row rest))]

/-- Claim C1: grid reconstruction through the ZPC path.  When every row of
zpc_df names a valid layer, a negative zone present in izone, and no two
rows share a layer and zone pair, set_array_from_zpc_df succeeds, leaves
izone alone, assigns every cell of a row's layer whose izone value equals
the row's zone the row's scalar value, and leaves every cell selected by no
row (cells outside the mask, other layers) unchanged. -/
theorem set_array_from_zpc_df_assigns (mm : MModel) (p : PParam)
    (hval : ∀ row ∈ p.zpc_df, row.lay < mm.nlay ∧ row.zone < 0 ∧ row.zone ∈ allVals mm p.izone)
    (hnd : (p.zpc_df.map (fun row => (row.lay, row.zone))).Nodup) :
    ∃ p', set_array_from_zpc_df mm p = .ok p' ∧
      p'.izone = p.izone ∧
      (∀ row ∈ p.zpc_df, ∀ r c : ℕ, p.izone row.lay r c = row.zone →
        p'.array row.lay r c = row.value) ∧
      (∀ i r c : ℕ, (∀ row ∈ p.zpc_df, ¬ (i = row.lay ∧ p.izone i r c = row.zone)) →
        p'.array i r c = p.array i r c) :=
  foldlM_set_array mm p.zpc_df p hval hnd

/-- Witness for C1: the concrete two-zone scenario of the claim, zone minus
one over rows 0 and 1 and zone minus two over rows 2 and 3 of layer 0, with
values 5.0 and 9.0. -/
theorem set_array_from_zpc_df_assigns_witness :
    ((∀ row ∈ pC1.zpc_df,
        row.lay < mmC1.nlay ∧ row.zone < 0 ∧ row.zone ∈ allVals mmC1 pC1.izone) ∧
      (pC1.zpc_df.map (fun row => (row.lay, row.zone))).Nodup) ∧
    (∃ p', set_array_from_zpc_df mmC1 pC1 = .ok p' ∧
      p'.izone = pC1.izone ∧
      (∀ row ∈ pC1.zpc_df, ∀ r c : ℕ, pC1.izone row.lay r c = row.zone →
        p'.array row.lay r c = row.value) ∧
      (∀ i r c : ℕ, (∀ row ∈ pC1.zpc_df, ¬ (i = row.lay ∧ pC1.izone i r c = row.zone)) →
        p'.array i r c = pC1.array i r c)) :=
  ⟨⟨by decide, by decide⟩,
    set_array_from_zpc_df_assigns mmC1 pC1 (by decide) (by decide)⟩

theorem nodup_layerZones (mm : MModel) (iz : ℕ → ℕ → ℕ → ℤ) (lay : ℕ) :
    (layerZones mm iz lay).Nodup :=
  nodup_npUnique _

theorem mem_layerZones {mm : MModel} {iz : ℕ → ℕ → ℕ → ℤ} {lay : ℕ} {z : ℤ} :
    z ∈ layerZones mm iz lay ↔ ∃ r < mm.nrow, ∃ c < mm.ncol, iz lay r c = z :=
  mem_npUnique.trans mem_layerVals

theorem init_zpc_df_pairs_eq (mm : MModel) (name : String) (dv : MFloat)
    (iz : ℕ → ℕ → ℕ → ℤ) :
    (init_zpc_df mm name dv iz).map (fun row => (row.lay, row.zone)) =
      (List.range mm.nlay).flatMap (fun lay =>
        ((layerZones mm iz lay).filter (fun z => z < 0)).map (fun z => (lay, z))) := by
  unfold init_zpc_df
  rw [List.map_flatMap]
  simp only [List.map_map]
  rfl

theorem init_zpc_df_pairs_nodup (mm : MModel) (name : String) (dv : MFloat)
    (iz : ℕ → ℕ → ℕ → ℤ) :
    ((init_zpc_df mm name dv iz).map (fun row => (row.lay, row.zone))).Nodup := by
  rw [init_zpc_df_pairs_eq]
  apply List.nodup_flatMap.mpr
  refine ⟨?_, ?_⟩
  · intro lay _
    refine List.Nodup.map ?_ ((nodup_layerZones mm iz lay).filter _)
    intro a b hab
    exact (Prod.ext_iff.mp hab).2
  · refine List.Pairwise.imp ?_ (List.pairwise_lt_range mm.nlay)
    intro l1 l2 hlt x hx1 hx2
    rcases List.mem_map.mp hx1 with ⟨z1, _, hz1⟩
    rcases List.mem_map.mp hx2 with ⟨z2, _, hz2⟩
    have h1 : x.1 = l1 := by rw [← hz1]
    have h2 : x.1 = l2 := by rw [← hz2]
    omega

theorem mem_init_zpc_df_pairs {mm : MModel} {name : String} {dv : MFloat}
    {iz : ℕ → ℕ → ℕ → ℤ} {lay : ℕ} {zone : ℤ} :
    (lay, zone) ∈ (init_zpc_df mm name dv iz).map (fun row => (row.lay, row.zone)) ↔
      (lay < mm.nlay ∧ zone < 0 ∧ ∃ r < mm.nrow, ∃ c < mm.ncol, iz lay r c = zone) := by
  rw [init_zpc_df_pairs_eq]
  simp only [List.mem_flatMap, List.mem_map, List.mem_filter, List.mem_range,
    Prod.mk.injEq, decide_eq_true_eq]
  constructor
  · rintro ⟨l, hl, z, ⟨hz, hneg⟩, hlz, hzz⟩
    subst hlz
    subst hzz
    exact ⟨hl, hneg, mem_layerZones.mp hz⟩
  · rintro ⟨hl, hneg, hex⟩
    exact ⟨lay, hl, zone, ⟨mem_layerZones.mpr hex, hneg⟩, rfl, rfl⟩

theorem init_zpc_df_values (mm : MModel) (name : String) (dv : MFloat)
    (iz : ℕ → ℕ → ℕ → ℤ) :
    ∀ row ∈ init_zpc_df mm name dv iz, row.value = dv := by
  intro row hm
  unfold init_zpc_df at hm
  rw [List.mem_flatMap] at hm
  obtain ⟨lay, _, hm⟩ := hm
  rw [List.mem_map] at hm
  obtain ⟨z, _, hz⟩ := hm
  rw [← hz]

theorem list_eq_singleton {l : List ℤ} {a : ℤ} (h3 : l.Nodup) (h1 : a ∈ l)
    (h2 : ∀ b ∈ l, b = a) : l = [a] := by
  cases l with
  | nil => cases h1
  | cons x xs =>
    have hx : x = a := h2 x (List.mem_cons_self x xs)
    subst hx
    have hxs : xs = [] := by
      cases xs with
      | nil => rfl
      | cons y ys =>
        have hy : y = x := h2 y (List.mem_cons_of_mem x (List.mem_cons_self y ys))
        have hnin := (List.nodup_cons.mp h3).1
        exact absurd (hy ▸ List.mem_cons_self y ys) hnin
    rw [hxs]

theorem default_layer_filter (mm : MModel)
    (hmask : ∀ i < mm.nlay, ∀ r < mm.nrow, ∀ c < mm.ncol,
      mm.imask i r c = 0 ∨ mm.imask i r c = 1)
    (lay : ℕ) (hlay : lay < mm.nlay)
    (hact : ∃ r < mm.nrow, ∃ c < mm.ncol, mm.imask lay r c = 1) :
    (layerZones mm (fun i r c => if mm.imask i r c = 1 then -1 else mm.imask i r c)
      lay).filter (fun z => z < 0) = [-1] := by
  apply list_eq_singleton ((nodup_layerZones _ _ _).filter _)
  · rw [List.mem_filter]
    refine ⟨?_, by decide⟩
    apply mem_layerZones.mpr
    obtain ⟨r, hr, c, hc, hone⟩ := hact
    exact ⟨r, hr, c, hc, by rw [if_pos hone]⟩
  · intro b hb
    rw [List.mem_filter, decide_eq_true_eq] at hb
    obtain ⟨hbz, hbneg⟩ := hb
    obtain ⟨r, hr, c, hc, hval⟩ := mem_layerZones.mp hbz
    by_cases hone : mm.imask lay r c = 1
    · rw [if_pos hone] at hval
      exact hval.symm
    · rw [if_neg hone] at hval
      rcases hmask lay hlay r hr c hc with h0 | h1
      · rw [h0] at hval
        omega
      · exact absurd h1 hone

theorem init_zpc_df_default_length (mm : MModel) (name : String) (dv : MFloat)
    (hmask : ∀ i < mm.nlay, ∀ r < mm.nrow, ∀ c < mm.ncol,
      mm.imask i r c = 0 ∨ mm.imask i r c = 1)
    (hact : ∀ lay < mm.nlay, ∃ r < mm.nrow, ∃ c < mm.ncol, mm.imask lay r c = 1) :
    (init_zpc_df mm name dv
      (fun i r c => if mm.imask i r c = 1 then -1 else mm.imask i r c)).length = mm.nlay := by
  unfold init_zpc_df
  rw [List.length_flatMap]
  have hrep : List.map
      (List.length ∘ fun lay =>
        ((layerZones mm (fun i r c => if mm.imask i r c = 1 then -1 else mm.imask i r c)
          lay).filter (fun z => z < 0)).map
          (fun zone => (⟨ZPCFMT name lay zone, lay, zone, dv⟩ : ZpcRow)))
      (List.range mm.nlay) = List.replicate mm.nlay 1 := by
    apply List.eq_replicate_iff.mpr
    refine ⟨by rw [List.length_map, List.length_range], ?_⟩
    intro b hb
    rcases List.mem_map.mp hb with ⟨lay, hlay, hval⟩
    rw [List.mem_range] at hlay
    rw [← hval]
    show (((layerZones mm _ lay).filter (fun z => z < 0)).map _).length = 1
    rw [List.length_map, default_layer_filter mm hmask lay hlay (hact lay hlay)]
    rfl
  rw [hrep, List.sum_replicate, smul_eq_mul, mul_one]

/-- Claim C3: every zonation reset rebuilds the ZPC table so that its rows
are in bijection with the distinct (layer, negative zone) pairs present in
the new izone (no duplicate pairs; a pair occurs exactly when some in-range
cell of that layer carries that negative zone), every row holds the default
value, and for the default single-zone zonation over a 0-1 mask in which
every layer has an active cell, exactly nlay rows are produced. -/
theorem set_izone_zpc_rows (mm : MModel) (p : PParam) (izo : Option Arr3)
    (p' : PParam) (h : set_izone mm p izo = .ok p') :
    ((p'.zpc_df.map (fun row => (row.lay, row.zone))).Nodup) ∧
    (∀ lay : ℕ, ∀ zone : ℤ,
      (lay, zone) ∈ p'.zpc_df.map (fun row => (row.lay, row.zone)) ↔
        (lay < mm.nlay ∧ zone < 0 ∧
          ∃ r < mm.nrow, ∃ c < mm.ncol, p'.izone lay r c = zone)) ∧
    (∀ row ∈ p'.zpc_df, row.value = p.default_value) ∧
    (izo = none →
      (∀ i < mm.nlay, ∀ r < mm.nrow, ∀ c < mm.ncol,
        mm.imask i r c = 0 ∨ mm.imask i r c = 1) →
      (∀ lay < mm.nlay, ∃ r < mm.nrow, ∃ c < mm.ncol, mm.imask lay r c = 1) →
      p'.zpc_df.length = mm.nlay) := by
  cases izo with
  | none =>
      simp only [set_izone, Except.ok.injEq] at h
      subst h
      refine ⟨init_zpc_df_pairs_nodup mm p.name p.default_value _,
        fun lay zone => mem_init_zpc_df_pairs,
        init_zpc_df_values mm p.name p.default_value _,
        fun _ hmask hact => init_zpc_df_default_length mm p.name p.default_value hmask hact⟩
  | some a =>
      simp only [set_izone] at h
      split at h
      · simp only [Except.ok.injEq] at h
        subst h
        refine ⟨init_zpc_df_pairs_nodup mm p.name p.default_value _,
          fun lay zone => mem_init_zpc_df_pairs,
          init_zpc_df_values mm p.name p.default_value _,
          fun heq => Option.noConfusion heq⟩
      · exact Except.noConfusion h

/-- Witness for C3: resetting pC3 over the two-layer diagonal mask of mmC3
produces exactly two rows, each holding the default value 7. -/
theorem set_izone_zpc_rows_witness :
    pC3res.zpc_df.length = mmC3.nlay ∧
    (∀ row ∈ pC3res.zpc_df, row.value = pC3.default_value) :=
  ⟨(set_izone_zpc_rows mmC3 pC3 none pC3res rfl).2.2.2 rfl (by decide) (by decide),
   (set_izone_zpc_rows mmC3 pC3 none pC3res rfl).2.2.1⟩

theorem length_filter_dvd (n : ℕ) (hn : 0 < n) :
    ∀ R : ℕ, ((List.range R).filter (fun r => r % n == 0)).length = (R + n - 1) / n := by
  intro R
  induction R with
  | zero =>
      show (List.filter _ []).length = (0 + n - 1) / n
      rw [List.filter_nil]
      symm
      apply Nat.div_eq_of_lt
      omega
  | succ R ih =>
      rw [List.range_succ, List.filter_append, List.length_append, ih]
      have hstep : (R + 1 + n - 1) = (R + n - 1) + 1 := by omega
      rw [hstep, Nat.succ_div]
      have hiff : (n ∣ R + n - 1 + 1) ↔ n ∣ R := by
        have he : R + n - 1 + 1 = R + n := by omega
        rw [he]
        exact Nat.dvd_add_self_right
      by_cases hd : n ∣ R
      · have hmod : (R % n == 0) = true := by
          have h0 : R % n = 0 := Nat.dvd_iff_mod_eq_zero.mp hd
          simp [h0]
        rw [if_pos (hiff.mpr hd), List.filter_singleton, hmod]
        rfl
      · have hmod : (R % n == 0) = false := by
          have h0 : R % n ≠ 0 := fun h => hd (Nat.dvd_iff_mod_eq_zero.mpr h)
          simp [h0]
        rw [if_neg (fun hc => hd (hiff.mp hc)), List.filter_singleton, hmod]
        rfl

theorem sum_if_filter (n cnt : ℕ) :
    ∀ R : ℕ, ((List.range R).map (fun r => if (r % n == 0) = true then cnt else 0)).sum =
      ((List.range R).filter (fun r => r % n == 0)).length * cnt := by
  intro R
  induction R with
  | zero => simp
  | succ R ih =>
      rw [List.range_succ, List.map_append, List.sum_append, List.filter_append,
        List.length_append, ih, List.filter_singleton, Nat.add_mul]
      by_cases hd : (R % n == 0) = true
      · have heq : R % n = 0 := by simpa using hd
        simp [heq]
      · have hne : (R % n == 0) = false := by simpa using hd
        simp [hne]
        intro h
        exact absurd h (by simpa using hd)

theorem inner_filter_len (mm : MModel) (iz2 : ℕ → ℕ → ℤ) (n : ℕ)
    (hz : ∀ r < mm.nrow, ∀ c < mm.ncol, iz2 r c = 1) (r : ℕ) (hr : r < mm.nrow) :
    ((List.range mm.ncol).filter (fun c => pp_select iz2 n r c)).length =
      if (r % n == 0) = true
      then ((List.range mm.ncol).filter (fun c => c % n == 0)).length else 0 := by
  by_cases hrm : (r % n == 0) = true
  · rw [if_pos hrm]
    congr 1
    apply List.filter_congr
    intro c hc
    rw [List.mem_range] at hc
    unfold pp_select
    rw [hz r hr c hc, hrm]
    simp
  · rw [if_neg hrm]
    apply List.length_eq_zero.mpr
    apply List.filter_eq_nil_iff.mpr
    intro c _
    unfold pp_select
    have hrm0 : (r % n == 0) = false := by simpa using hrm
    rw [hrm0]
    simp

theorem selCells_length_all_one (mm : MModel) (iz2 : ℕ → ℕ → ℤ) (n : ℕ) (hn : 0 < n)
    (hz : ∀ r < mm.nrow, ∀ c < mm.ncol, iz2 r c = 1) :
    (selCells mm iz2 n).length =
      ((mm.nrow + n - 1) / n) * ((mm.ncol + n - 1) / n) := by
  unfold selCells
  rw [List.length_flatMap]
  have hmapeq : List.map
      (List.length ∘ fun r =>
        ((List.range mm.ncol).filter (fun c => pp_select iz2 n r c)).map (fun c => (r, c)))
      (List.range mm.nrow) =
      List.map (fun r => if (r % n == 0) = true
        then ((List.range mm.ncol).filter (fun c => c % n == 0)).length else 0)
      (List.range mm.nrow) := by
    apply List.map_congr_left
    intro r hr
    rw [List.mem_range] at hr
    show (((List.range mm.ncol).filter (fun c => pp_select iz2 n r c)).map (fun c => (r, c))).length = _
    rw [List.length_map]
    exact inner_filter_len mm iz2 n hz r hr
  rw [hmapeq, sum_if_filter, length_filter_dvd n hn, length_filter_dvd n hn]

theorem selCells_nodup (mm : MModel) (iz2 : ℕ → ℕ → ℤ) (n : ℕ) :
    (selCells mm iz2 n).Nodup := by
  apply List.nodup_flatMap.mpr
  refine ⟨?_, ?_⟩
  · intro r _
    refine List.Nodup.map ?_ ((List.nodup_range mm.ncol).filter _)
    intro a b hab
    exact (Prod.ext_iff.mp hab).2
  · refine List.Pairwise.imp ?_ (List.pairwise_lt_range mm.nrow)
    intro r1 r2 hlt x hx1 hx2
    rcases List.mem_map.mp hx1 with ⟨c1, _, hc1⟩
    rcases List.mem_map.mp hx2 with ⟨c2, _, hc2⟩
    have h1 : x.1 = r1 := by rw [← hc1]
    have h2 : x.1 = r2 := by rw [← hc2]
    omega

theorem mem_selCells {mm : MModel} {iz2 : ℕ → ℕ → ℤ} {n : ℕ} {rc : ℕ × ℕ} :
    rc ∈ selCells mm iz2 n ↔
      rc.1 < mm.nrow ∧ rc.2 < mm.ncol ∧ pp_select iz2 n rc.1 rc.2 = true := by
  unfold selCells
  simp only [List.mem_flatMap, List.mem_map, List.mem_filter, List.mem_range]
  constructor
  · rintro ⟨r, hr, c, ⟨hc, hsel⟩, hrc⟩
    rw [← hrc]
    exact ⟨hr, hc, hsel⟩
  · rintro ⟨hr, hc, hsel⟩
    exact ⟨rc.1, hr, rc.2, ⟨hc, hsel⟩, rfl⟩

theorem charVal_dChar : ∀ d < 10, charVal (dChar d) = d := by decide

theorem ofDigits_replicate_zero : ∀ k : ℕ, Nat.ofDigits 10 (List.replicate k 0) = 0 := by
  intro k
  induction k with
  | zero => rfl
  | succ k ih =>
      rw [List.replicate_succ, Nat.ofDigits_cons, ih]

theorem padNum_val (w n : ℕ) :
    Nat.ofDigits 10 (((padNum w n).data.reverse).map charVal) = n := by
  show Nat.ofDigits 10
    (((List.replicate (w - (decChars n).length) '0' ++ decChars n).reverse).map charVal) = n
  rw [List.reverse_append, List.map_append]
  have h1 : (decChars n).reverse.map charVal = Nat.digits 10 n := by
    unfold decChars
    rw [List.reverse_reverse, List.map_map]
    have hcong : ∀ d ∈ Nat.digits 10 n, (charVal ∘ dChar) d = id d := by
      intro d hd
      exact charVal_dChar d (Nat.digits_lt_base (by norm_num) hd)
    rw [List.map_congr_left hcong, List.map_id]
  have h2 : ((List.replicate (w - (decChars n).length) '0').reverse).map charVal =
      List.replicate (w - (decChars n).length) 0 := by
    rw [List.reverse_replicate, List.map_replicate]
    rfl
  rw [h1, h2, Nat.ofDigits_append, Nat.ofDigits_digits, ofDigits_replicate_zero,
    mul_zero, add_zero]

theorem padNum_injective (w : ℕ) : Function.Injective (padNum w) := by
  intro a b hab
  have hdata : (padNum w a).data = (padNum w b).data := by rw [hab]
  calc a = Nat.ofDigits 10 (((padNum w a).data.reverse).map charVal) := (padNum_val w a).symm
    _ = Nat.ofDigits 10 (((padNum w b).data.reverse).map charVal) := by rw [hdata]
    _ = b := padNum_val w b

theorem string_data_inj {s t : String} (h : s.data = t.data) : s = t := by
  cases s
  cases t
  exact congrArg String.mk h

theorem append_padNum_inj (pfx : String) (w : ℕ) {a b : ℕ}
    (h : pfx ++ padNum w a = pfx ++ padNum w b) : a = b := by
  apply padNum_injective w
  have h2 := congrArg String.data h
  rw [String.data_append, String.data_append] at h2
  exact string_data_inj (List.append_cancel_left h2)

theorem map_zipWith_left {α β γ δ : Type} (f : α → β → γ) (g : γ → δ) (g1 : α → δ)
    (hg : ∀ a b, g (f a b) = g1 a) :
    ∀ (as : List α) (bs : List β), as.length = bs.length →
      (List.zipWith f as bs).map g = as.map g1 := by
  intro as
  induction as with
  | nil => intro bs _; rfl
  | cons a as ih =>
      intro bs hlen
      cases bs with
      | nil => cases hlen
      | cons b bs =>
          show g (f a b) :: (List.zipWith f as bs).map g = g1 a :: as.map g1
          rw [hg a b, ih bs (by simpa using hlen)]

theorem map_zipWith_right {α β γ δ : Type} (f : α → β → γ) (g : γ → δ) (g2 : β → δ)
    (hg : ∀ a b, g (f a b) = g2 b) :
    ∀ (as : List α) (bs : List β), as.length = bs.length →
      (List.zipWith f as bs).map g = bs.map g2 := by
  intro as
  induction as with
  | nil =>
      intro bs hlen
      cases bs with
      | nil => rfl
      | cons b bs => cases hlen
  | cons a as ih =>
      intro bs hlen
      cases bs with
      | nil => cases hlen
      | cons b bs =>
          show g (f a b) :: (List.zipWith f as bs).map g = g2 b :: bs.map g2
          rw [hg a b, ih bs (by simpa using hlen)]

theorem forall_mem_zipWith {α β γ : Type} {f : α → β → γ} {P : γ → Prop}
    (hP : ∀ a b, P (f a b)) :
    ∀ (as : List α) (bs : List β), ∀ x ∈ List.zipWith f as bs, P x := by
  intro as
  induction as with
  | nil => intro bs x hx; cases hx
  | cons a as ih =>
      intro bs x hx
      cases bs with
      | nil => cases hx
      | cons b bs =>
          rcases List.mem_cons.mp hx with hEq | hmem
          · rw [hEq]; exact hP a b
          · exact ih bs x hmem

theorem dicGet_dicSet (d : List (ℕ × Option (List PpRow))) (k : ℕ)
    (v : Option (List PpRow)) : dicGet (dicSet d k v) k = some v := by
  induction d with
  | nil => simp [dicSet, dicGet, List.find?]
  | cons e rest ih =>
      obtain ⟨k0, v0⟩ := e
      by_cases hk : k0 = k
      · show dicGet (if k0 = k then (k, v) :: rest else (k0, v0) :: dicSet rest k v) k = some v
        rw [if_pos hk]
        simp [dicGet, List.find?]
      · show dicGet (if k0 = k then (k, v) :: rest else (k0, v0) :: dicSet rest k v) k = some v
        rw [if_neg hk]
        have hbeq : (k0 == k) = false := by simpa using hk
        simp only [dicGet, List.find?, hbeq]
        exact ih

/-- Claim C9: pp_from_rgrid with stride n_cell over a layer whose cells all
carry zone 1 stores under that layer a pilot-point table with exactly
ceil(nrow divided by n_cell) times ceil(ncol divided by n_cell) rows (the
ceiling of a division of naturals m by n being (m + n - 1) / n), whose cell
centers are pairwise distinct whenever the coordinate vectors are injective
on the grid, whose names are pairwise distinct, and whose rows all carry
the default value and zone 1. -/
theorem pp_from_rgrid_regular (mm : MModel) (p : PParam) (lay n_cell : ℕ)
    (hn : 0 < n_cell)
    (hz : ∀ r < mm.nrow, ∀ c < mm.ncol, p.izone lay r c = 1)
    (hx : ∀ c1 < mm.ncol, ∀ c2 < mm.ncol, mm.x_vals c1 = mm.x_vals c2 → c1 = c2)
    (hy : ∀ r1 < mm.nrow, ∀ r2 < mm.nrow, mm.y_vals r1 = mm.y_vals r2 → r1 = r2) :
    ∃ df, dicGet (pp_from_rgrid mm p lay n_cell).pp_dic lay = some (some df) ∧
      df.length = ((mm.nrow + n_cell - 1) / n_cell) * ((mm.ncol + n_cell - 1) / n_cell) ∧
      (df.map (fun row => (row.x, row.y))).Nodup ∧
      (df.map (fun row => row.name)).Nodup ∧
      (∀ row ∈ df, row.value = p.default_value ∧ row.zone = 1) := by
  have hlen : ((List.range (selCells mm (fun r c => p.izone lay r c) n_cell).length).map
      (fun k => p.name ++ "_l" ++ padNum 2 lay ++ "_z" ++ padNum 2 1 ++ "_" ++ padNum 3 k)).length =
      (selCells mm (fun r c => p.izone lay r c) n_cell).length := by
    rw [List.length_map, List.length_range]
  refine ⟨List.zipWith
      (fun nm rc => PpRow.mk nm (mm.x_vals rc.2) (mm.y_vals rc.1) 1 p.default_value)
      ((List.range (selCells mm (fun r c => p.izone lay r c) n_cell).length).map
        (fun k => p.name ++ "_l" ++ padNum 2 lay ++ "_z" ++ padNum 2 1 ++ "_" ++ padNum 3 k))
      (selCells mm (fun r c => p.izone lay r c) n_cell), ?_, ?_, ?_, ?_, ?_⟩
  · exact dicGet_dicSet p.pp_dic lay _
  · rw [List.length_zipWith, hlen, min_self]
    exact selCells_length_all_one mm _ n_cell hn hz
  · rw [map_zipWith_right _ _ (fun rc => (mm.x_vals rc.2, mm.y_vals rc.1))
      (fun a b => rfl) _ _ hlen]
    apply List.Nodup.map_on ?_ (selCells_nodup mm _ n_cell)
    intro rc1 h1 rc2 h2 heq
    obtain ⟨hr1, hc1, -⟩ := mem_selCells.mp h1
    obtain ⟨hr2, hc2, -⟩ := mem_selCells.mp h2
    have hcx := hx rc1.2 hc1 rc2.2 hc2 (Prod.ext_iff.mp heq).1
    have hry := hy rc1.1 hr1 rc2.1 hr2 (Prod.ext_iff.mp heq).2
    exact Prod.ext_iff.mpr ⟨hry, hcx⟩
  · rw [map_zipWith_left _ _ (fun nm => nm) (fun a b => rfl) _ _ hlen]
    have hid : ((List.range (selCells mm (fun r c => p.izone lay r c) n_cell).length).map
        (fun k => p.name ++ "_l" ++ padNum 2 lay ++ "_z" ++ padNum 2 1 ++ "_" ++ padNum 3 k)).map
        (fun nm => nm) =
        (List.range (selCells mm (fun r c => p.izone lay r c) n_cell).length).map
        (fun k => p.name ++ "_l" ++ padNum 2 lay ++ "_z" ++ padNum 2 1 ++ "_" ++ padNum 3 k) := by
      rw [List.map_id']
    rw [hid]
    apply List.Nodup.map_on ?_ (List.nodup_range _)
    intro k1 _ k2 _ heq
    exact append_padNum_inj (p.name ++ "_l" ++ padNum 2 lay ++ "_z" ++ padNum 2 1 ++ "_") 3 heq
  · exact forall_mem_zipWith (fun a b => ⟨rfl, rfl⟩) _ _

/-- Witness for C9: stride 2 over the all-active single-layer 5 by 4 grid of
mmC9 yields a table of 6 points (3 row positions times 2 column positions),
with distinct centers and names and the default value. -/
theorem pp_from_rgrid_regular_witness :
    (0 < 2 ∧ (∀ r < mmC9.nrow, ∀ c < mmC9.ncol, pC9.izone 0 r c = 1)) ∧
    (∃ df, dicGet (pp_from_rgrid mmC9 pC9 0 2).pp_dic 0 = some (some df) ∧
      df.length = ((mmC9.nrow + 2 - 1) / 2) * ((mmC9.ncol + 2 - 1) / 2) ∧
      (df.map (fun row => (row.x, row.y))).Nodup ∧
      (df.map (fun row => row.name)).Nodup ∧
      (∀ row ∈ df, row.value = pC9.default_value ∧ row.zone = 1)) :=
  ⟨⟨by decide, by decide⟩,
   pp_from_rgrid_regular mmC9 pC9 0 2 (by decide) (by decide) (by decide) (by decide)⟩
